import Mathlib

/-!
Shallow embedding of `src/adetailer/mask.py` (mask/bbox post-processing
pipeline) and proofs of the specification claims about it.

Images (PIL `Image.Image`, single-channel) are modelled as functions from
row/column coordinates to natural-number pixel values (uint8 pixels are
0..255; where uint8 overflow matters we compute `% 256` explicitly).
Bounding boxes `[x1, y1, x2, y2]` (Python `list[float]`) are modelled with
rational coordinates.
-/

/-- Single-channel pixel buffer of width `w` and height `h`: row index first
(`Fin h`), then column index (`Fin w`); the value is the pixel (uint8, so
0..255 for real inputs). -/
abbrev Mask (w h : ℕ) := Fin h → Fin w → ℕ

/-- Bounding box `[x1, y1, x2, y2]` (source: `list[float]`, indexed 0..3). -/
structure Bbox where
  x1 : ℚ
  y1 : ℚ
  x2 : ℚ
  y2 : ℚ
deriving DecidableEq, Inhabited, Repr

/-- Modelled from the spec: `PredictOutput` (defined in `adetailer/common.py`,
which is not under `src/`): aligned `bboxes`/`masks`/`confidences` sequences
plus the reference image `preview`, of which this module only consults
`preview.size = (width, height)`; we keep just that extent. The mask entries
are opaque to sorting/filtering, so their type is a parameter. -/
structure PredictOutput (α : Type) where
  bboxes : List Bbox
  masks : List α
  confidences : List ℚ
  preview : ℕ × ℕ
deriving DecidableEq

/-- Source `bbox_area`: `(bbox[2] - bbox[0]) * (bbox[3] - bbox[1])`. -/
def bbox_area (b : Bbox) : ℚ := (b.x2 - b.x1) * (b.y2 - b.y1)

/-- Wrap an integer coordinate into `Fin n` by modular arithmetic (the index
arithmetic behind a toroidal shift). -/
def wrapIdx (n : ℕ) [NeZero n] (i : ℤ) : Fin n :=
  ⟨(i % (n : ℤ)).toNat, by
    have hn : (0 : ℤ) < (n : ℤ) := Int.natCast_pos.mpr (Nat.pos_of_ne_zero (NeZero.ne n))
    have h1 : 0 ≤ i % (n : ℤ) := Int.emod_nonneg i (ne_of_gt hn)
    have h2 : i % (n : ℤ) < (n : ℤ) := Int.emod_lt_of_pos i hn
    omega⟩

/-- `PIL.ImageChops.offset(image, xoffset, yoffset)`: returns a copy where
data has been moved by `xoffset` columns and `yoffset` rows, wrapping around
the edges (toroidal): result pixel `(r, c)` is the source pixel at
`((r - yoffset) mod h, (c - xoffset) mod w)`. -/
def imagechops_offset {w h : ℕ} [NeZero w] [NeZero h]
    (m : Mask w h) (xoffset yoffset : ℤ) : Mask w h :=
  fun r c => m (wrapIdx h ((r : ℤ) - yoffset)) (wrapIdx w ((c : ℤ) - xoffset))

/-- Source `offset(img, x, y)`: `ImageChops.offset(img, x, -y)` (positive `y`
moves content up, hence the negated row offset). -/
def offset {w h : ℕ} [NeZero w] [NeZero h] (m : Mask w h) (x y : ℤ) : Mask w h :=
  imagechops_offset m x (-y)

theorem wrapIdx_coe {n : ℕ} [NeZero n] (j : Fin n) : wrapIdx n (j : ℤ) = j := by
  apply Fin.ext
  simp only [wrapIdx]
  have hj : ((j : ℤ) % (n : ℤ)) = (j : ℤ) :=
    Int.emod_eq_of_lt (by exact_mod_cast Nat.zero_le _) (by exact_mod_cast j.isLt)
  omega

theorem wrapIdx_add {n : ℕ} [NeZero n] (a b : ℤ) :
    wrapIdx n (((wrapIdx n a : Fin n) : ℤ) + b) = wrapIdx n (a + b) := by
  apply Fin.ext
  simp only [wrapIdx]
  have hn : (0 : ℤ) < (n : ℤ) := Int.natCast_pos.mpr (Nat.pos_of_ne_zero (NeZero.ne n))
  have h1 : 0 ≤ a % (n : ℤ) := Int.emod_nonneg a (ne_of_gt hn)
  have hcast : (((a % (n : ℤ)).toNat : ℤ)) = a % (n : ℤ) := Int.toNat_of_nonneg h1
  have key : ((a % (n : ℤ)) + b) % (n : ℤ) = (a + b) % (n : ℤ) := by
    conv_rhs => rw [Int.add_emod]
    rw [Int.add_emod (a % (n : ℤ)) b, Int.emod_emod_of_dvd a dvd_rfl]
  rw [hcast, key]

/-- C6: `offset` is a toroidal (wraparound) shift: `offset(m, 0, 0) == m`,
and for every `dx`, `dy`, `offset(offset(m, dx, dy), -dx, -dy) == m` — the
round trip restores the mask exactly, losing no pixel at any edge. -/
theorem offset_toroidal (w h : ℕ) [NeZero w] [NeZero h] (m : Mask w h) (dx dy : ℤ) :
    offset m 0 0 = m ∧ offset (offset m dx dy) (-dx) (-dy) = m := by
  constructor
  · funext r c
    simp only [offset, imagechops_offset, neg_zero, sub_zero]
    rw [wrapIdx_coe, wrapIdx_coe]
  · funext r c
    simp only [offset, imagechops_offset]
    rw [show ((r : ℤ) - - -dy) = ((r : ℤ) + -dy) by ring,
        show ((c : ℤ) - -dx) = ((c : ℤ) + dx) by ring]
    have hr : wrapIdx h (((wrapIdx h ((r : ℤ) + -dy) : Fin h) : ℤ) - -dy)
        = wrapIdx h ((r : ℤ)) := by
      rw [show (((wrapIdx h ((r : ℤ) + -dy) : Fin h) : ℤ) - -dy)
            = (((wrapIdx h ((r : ℤ) + -dy) : Fin h) : ℤ) + dy) by ring,
          wrapIdx_add]
      congr 1
      ring
    have hc : wrapIdx w (((wrapIdx w ((c : ℤ) + dx) : Fin w) : ℤ) - dx)
        = wrapIdx w ((c : ℤ)) := by
      rw [show (((wrapIdx w ((c : ℤ) + dx) : Fin w) : ℤ) - dx)
            = (((wrapIdx w ((c : ℤ) + dx) : Fin w) : ℤ) + -dx) by ring,
          wrapIdx_add]
      congr 1
      ring
    rw [hr, hc, wrapIdx_coe, wrapIdx_coe]

/-- Witness for C6 at a concrete 2×2 mask and shift (3, -1). -/
theorem offset_toroidal_witness :
    offset (fun r c => 10 * (r : ℕ) + (c : ℕ) : Mask 2 2) 0 0
        = (fun r c => 10 * (r : ℕ) + (c : ℕ) : Mask 2 2)
      ∧ offset (offset (fun r c => 10 * (r : ℕ) + (c : ℕ) : Mask 2 2) 3 (-1)) (-3) 1
        = (fun r c => 10 * (r : ℕ) + (c : ℕ) : Mask 2 2) :=
  offset_toroidal 2 2 (fun r c => 10 * (r : ℕ) + (c : ℕ)) 3 (-1)

/-- Pixel of `m` at integer coordinates (row `ri`, column `ci`), `none` when
out of frame. -/
def pixelAt {w h : ℕ} (m : Mask w h) (ri ci : ℤ) : Option ℕ :=
  if hr : 0 ≤ ri ∧ ri < (h : ℤ) then
    if hc : 0 ≤ ci ∧ ci < (w : ℤ) then
      some (m ⟨ri.toNat, by omega⟩ ⟨ci.toNat, by omega⟩)
    else none
  else none

/-- Positions of the `v`×`v` all-ones rectangular structuring element
(`cv2.getStructuringElement(cv2.MORPH_RECT, (value, value))`). -/
def kernelWindow (v : ℕ) : Finset (ℕ × ℕ) := Finset.range v ×ˢ Finset.range v

/-- Source `_dilate`: `cv2.dilate` with the `v`×`v` rectangle, one iteration,
anchor at the kernel center `(v/2, v/2)`: each output pixel is the maximum of
the source over the window. The default border behaves as −∞ for dilation and
pixels are ≥ 0, so out-of-frame positions contribute the sup identity 0. -/
def _dilate {w h : ℕ} (m : Mask w h) (v : ℕ) : Mask w h :=
  fun r c => (kernelWindow v).sup fun p =>
    (pixelAt m ((r : ℤ) + (p.1 : ℤ) - ((v / 2 : ℕ) : ℤ))
               ((c : ℤ) + (p.2 : ℤ) - ((v / 2 : ℕ) : ℤ))).getD 0

/-- Source `_erode`: `cv2.erode` with the `v`×`v` rectangle, one iteration:
each output pixel is the minimum of the source over the in-frame part of the
window (the default border behaves as +∞ for erosion and never attains the
minimum). For `v > 0` the anchor position `(v/2, v/2)` is in-frame with value
`m r c`, so seeding the fold with `m r c` computes exactly that minimum. -/
def _erode {w h : ℕ} (m : Mask w h) (v : ℕ) : Mask w h :=
  fun r c =>
    ((kernelWindow v).filter fun p =>
        (pixelAt m ((r : ℤ) + (p.1 : ℤ) - ((v / 2 : ℕ) : ℤ))
                   ((c : ℤ) + (p.2 : ℤ) - ((v / 2 : ℕ) : ℤ))).isSome).fold
      min (m r c) fun p =>
        (pixelAt m ((r : ℤ) + (p.1 : ℤ) - ((v / 2 : ℕ) : ℤ))
                   ((c : ℤ) + (p.2 : ℤ) - ((v / 2 : ℕ) : ℤ))).getD 0

/-- Source `dilate_erode(img, value)`: identity at 0, `_dilate` for positive
`value`, `_erode` with `-value` for negative `value`. -/
def dilate_erode {w h : ℕ} (m : Mask w h) (value : ℤ) : Mask w h :=
  if value = 0 then m
  else if 0 < value then _dilate m value.toNat
  else _erode m (-value).toNat

/-- Number of nonzero pixels (`cv2.countNonZero`). -/
def countNonZero {w h : ℕ} (m : Mask w h) : ℕ :=
  (Finset.univ.filter fun p : Fin h × Fin w => m p.1 p.2 ≠ 0).card

theorem pixelAt_self {w h : ℕ} (m : Mask w h) (r : Fin h) (c : Fin w) :
    pixelAt m ((r : ℕ) : ℤ) ((c : ℕ) : ℤ) = some (m r c) := by
  have hr : (0 : ℤ) ≤ ((r : ℕ) : ℤ) ∧ ((r : ℕ) : ℤ) < (h : ℤ) :=
    ⟨Int.natCast_nonneg _, by exact_mod_cast r.isLt⟩
  have hc : (0 : ℤ) ≤ ((c : ℕ) : ℤ) ∧ ((c : ℕ) : ℤ) < (w : ℤ) :=
    ⟨Int.natCast_nonneg _, by exact_mod_cast c.isLt⟩
  rw [pixelAt, dif_pos hr, dif_pos hc]
  simp

theorem le_dilate {w h : ℕ} (m : Mask w h) (v : ℕ) (hv : 0 < v) (r : Fin h) (c : Fin w) :
    m r c ≤ _dilate m v r c := by
  have hmem : ((v / 2 : ℕ), (v / 2 : ℕ)) ∈ kernelWindow v := by
    simp [kernelWindow, Finset.mem_product, Finset.mem_range, Nat.div_lt_self hv]
  have hle := Finset.le_sup (f := fun p : ℕ × ℕ =>
    (pixelAt m ((r : ℤ) + (p.1 : ℤ) - ((v / 2 : ℕ) : ℤ))
               ((c : ℤ) + (p.2 : ℤ) - ((v / 2 : ℕ) : ℤ))).getD 0) hmem
  have harith : ((r : ℤ) + ((v / 2 : ℕ) : ℤ) - ((v / 2 : ℕ) : ℤ)) = ((r : ℕ) : ℤ) := by ring
  have harithc : ((c : ℤ) + ((v / 2 : ℕ) : ℤ) - ((v / 2 : ℕ) : ℤ)) = ((c : ℕ) : ℤ) := by ring
  simp only [harith, harithc, pixelAt_self, Option.getD_some] at hle
  exact hle

theorem erode_le {w h : ℕ} (m : Mask w h) (v : ℕ) (r : Fin h) (c : Fin w) :
    _erode m v r c ≤ m r c :=
  (Finset.fold_min_le _).mpr (Or.inl le_rfl)

theorem countNonZero_mono {w h : ℕ} {m m' : Mask w h}
    (hp : ∀ r c, m r c ≤ m' r c) : countNonZero m ≤ countNonZero m' := by
  apply Finset.card_le_card
  intro p hplace
  simp only [Finset.mem_filter, Finset.mem_univ, true_and] at hplace ⊢
  have := hp p.1 p.2
  omega

/-- C9: `dilate_erode(m, 0)` is value-equal to `m`; for `value > 0` the
nonzero-pixel count never shrinks (dilation); for `value < 0` it never grows
(erosion). -/
theorem dilate_erode_spec {w h : ℕ} (m : Mask w h) (value : ℤ) :
    dilate_erode m 0 = m
      ∧ (0 < value → countNonZero m ≤ countNonZero (dilate_erode m value))
      ∧ (value < 0 → countNonZero (dilate_erode m value) ≤ countNonZero m) := by
  refine ⟨by simp [dilate_erode], ?_, ?_⟩
  · intro hv
    rw [dilate_erode, if_neg (by omega), if_pos hv]
    exact countNonZero_mono fun r c => le_dilate m value.toNat (by omega) r c
  · intro hv
    rw [dilate_erode, if_neg (by omega), if_neg (by omega)]
    exact countNonZero_mono fun r c => erode_le m (-value).toNat r c

/-- Witness for C9 at a concrete 2×2 mask with `value = 1` and `value = -1`. -/
theorem dilate_erode_spec_witness :
    ((0 : ℤ) < 1
        ∧ countNonZero (fun _ _ => 255 : Mask 2 2)
            ≤ countNonZero (dilate_erode (fun _ _ => 255 : Mask 2 2) 1))
      ∧ ((-1 : ℤ) < 0
        ∧ countNonZero (dilate_erode (fun _ _ => 255 : Mask 2 2) (-1))
            ≤ countNonZero (fun _ _ => 255 : Mask 2 2)) :=
  ⟨⟨by norm_num, (dilate_erode_spec (fun _ _ => 255 : Mask 2 2) 1).2.1 (by norm_num)⟩,
   ⟨by norm_num, (dilate_erode_spec (fun _ _ => 255 : Mask 2 2) (-1)).2.2 (by norm_num)⟩⟩

/-- Source `subtract_masks`: `np.array` of a mode-L mask is a uint8 buffer,
so `arr1 - arr2` is uint8 arithmetic and wraps modulo 256; `np.clip(·, 0,
255)` is `min (max · 0) 255`, a no-op on values already in 0..255. -/
def subtract_masks {w h : ℕ} (m1 m2 : Mask w h) : Mask w h :=
  fun r c => min (max ((((m1 r c : ℤ) - (m2 r c : ℤ)) % 256).toNat) 0) 255

/-- Modelled from the spec (reference model for C1): `subtract(mask_a,
mask_b)` as pixelwise `clamp(mask_a - mask_b, 0, 255)` with exact integer
subtraction. -/
def subtract_clamp_spec {w h : ℕ} (m1 m2 : Mask w h) : Mask w h :=
  fun r c => (min (max ((m1 r c : ℤ) - (m2 r c : ℤ)) 0) 255).toNat

/-- C1 is a code bug: at a pixel where `mask_a` is 0 and `mask_b` is 255, the
code's uint8 subtraction wraps to 1 (then the clip is a no-op), while the
specified exact-subtraction clamp yields 0. Shown on 1×1 masks. -/
theorem subtract_masks_wraps :
    subtract_masks (fun _ _ => 0 : Mask 1 1) (fun _ _ => 255) = (fun _ _ => 1 : Mask 1 1)
      ∧ subtract_clamp_spec (fun _ _ => 0 : Mask 1 1) (fun _ _ => 255)
          = (fun _ _ => 0 : Mask 1 1) := by
  constructor <;> (funext r c; rfl)

/-- Source `is_all_black`: `cv2.countNonZero(arr) == 0`. -/
def is_all_black {w h : ℕ} (m : Mask w h) : Bool := countNonZero m = 0

/-- Source `_key_left_to_right`: `bbox[0]`. -/
def _key_left_to_right (b : Bbox) : ℚ := b.x1

/-- Source `_key_center_to_edge`: `math.dist(center, bbox_center)` with
`bbox_center = ((x1+x2)/2, (y1+y2)/2)`. We use the squared Euclidean
distance: `math.dist` is its square root, which ℚ lacks; square root is
strictly monotone on nonnegatives, so every comparison between keys — the
only use of this key — is unchanged. -/
def _key_center_to_edge (center : ℚ × ℚ) (b : Bbox) : ℚ :=
  (center.1 - (b.x1 + b.x2) / 2) ^ 2 + (center.2 - (b.y1 + b.y2) / 2) ^ 2

/-- Source `_key_area`: `-bbox_area(bbox)` (sorts large to small). -/
def _key_area (b : Bbox) : ℚ := - bbox_area b

/-- Sort key chosen by `sort_bboxes` for orders 1, 2, 3 (`LEFT_TO_RIGHT`;
`CENTER_TO_EDGE` with `center = (width/2, height/2)` from `preview.size`;
`AREA`). Only consulted for those three orders. -/
def sortKeyOf {α : Type} (pred : PredictOutput α) (order : ℤ) : Bbox → ℚ :=
  if order = 1 then _key_left_to_right
  else if order = 2 then
    _key_center_to_edge ((pred.preview.1 : ℚ) / 2, (pred.preview.2 : ℚ) / 2)
  else _key_area

/-- Source `idx = sorted(range(items), key=lambda i: key(pred.bboxes[i]))`:
Python's `sorted` is a stable sort, modelled by the stable `List.mergeSort`
on the index list with the by-key comparator. -/
def sortIdx {α : Type} (pred : PredictOutput α) (key : Bbox → ℚ) : List ℕ :=
  (List.range pred.bboxes.length).mergeSort fun i j =>
    decide (key (pred.bboxes.getD i default) ≤ key (pred.bboxes.getD j default))

/-- Source `sort_bboxes(pred, order)`: early return on `order == NONE or
len(bboxes) <= 1`; `raise RuntimeError` on an unrecognized order is modelled
as `Except.error`. -/
def sort_bboxes {α : Type} [Inhabited α] (pred : PredictOutput α) (order : ℤ) :
    Except Unit (PredictOutput α) :=
  if order = 0 ∨ pred.bboxes.length ≤ 1 then .ok pred
  else if order = 1 ∨ order = 2 ∨ order = 3 then
    let idx := sortIdx pred (sortKeyOf pred order)
    .ok { pred with
          bboxes := idx.map fun i => pred.bboxes.getD i default,
          masks := idx.map fun i => pred.masks.getD i default }
  else .error ()

/-- Source `is_in_ratio(bbox, low, high, orig_area)`:
`low <= bbox_area(bbox) / orig_area <= high`. -/
def is_in_ratio (b : Bbox) (low high : ℚ) (orig_area : ℕ) : Bool :=
  decide (low ≤ bbox_area b / (orig_area : ℚ)) && decide (bbox_area b / (orig_area : ℚ) ≤ high)

/-- Source `idx = [i for i in range(items) if is_in_ratio(pred.bboxes[i],
low, high, orig_area)]` with `orig_area = w * h` from `preview.size`. -/
def filterIdx {α : Type} (pred : PredictOutput α) (low high : ℚ) : List ℕ :=
  (List.range pred.bboxes.length).filter fun i =>
    is_in_ratio (pred.bboxes.getD i default) low high (pred.preview.1 * pred.preview.2)

/-- Source `filter_by_ratio(pred, low, high)`. -/
def filter_by_ratio {α : Type} [Inhabited α] (pred : PredictOutput α) (low high : ℚ) :
    PredictOutput α :=
  if pred.bboxes.isEmpty then pred
  else
    let idx := filterIdx pred low high
    { pred with
      bboxes := idx.map fun i => pred.bboxes.getD i default,
      masks := idx.map fun i => pred.masks.getD i default }

/-- `np.argsort(areas)`: the indices that sort `areas` ascending. numpy's
default sort kind leaves the order of ties unspecified; for the short arrays
produced here it coincides with the stable (original-order) tie-breaking,
which is what we model: stable `mergeSort` of the indices by value. -/
def argsort (l : List ℚ) : List ℕ :=
  (List.range l.length).mergeSort fun i j => decide (l.getD i 0 ≤ l.getD j 0)

/-- Python slice `l[s:]` with a start bound only: a negative `s` counts from
the end (clamped to the start), a nonnegative `s` drops the first `s`. -/
def pySliceFrom {α : Type} (s : ℤ) (l : List α) : List α :=
  if s < 0 then l.drop ((l.length : ℤ) + s).toNat else l.drop s.toNat

/-- Source `filter_k_largest(pred, k)`: early return on empty bboxes or
`k == 0`; otherwise `idx = np.argsort(areas)[-k:]` and both lists are mapped
through `idx`. -/
def filter_k_largest {α : Type} [Inhabited α] (pred : PredictOutput α) (k : ℤ) :
    PredictOutput α :=
  if pred.bboxes.isEmpty ∨ k = 0 then pred
  else
    let idx := pySliceFrom (-k) (argsort (pred.bboxes.map bbox_area))
    { pred with
      bboxes := idx.map fun i => pred.bboxes.getD i default,
      masks := idx.map fun i => pred.masks.getD i default }

/-- `cv2.bitwise_or`, pixelwise. -/
def bitwise_or {w h : ℕ} (a b : Mask w h) : Mask w h :=
  fun r c => Nat.lor (a r c) (b r c)

/-- Source `mask_merge`: `reduce(cv2.bitwise_or, arrs)` (a left fold seeded
with the first mask), returned as a singleton list. Python `reduce` raises on
an empty sequence; `mask_merge_invert` only reaches it with nonempty input,
and the unreachable empty case returns `[]`. -/
def mask_merge {w h : ℕ} (masks : List (Mask w h)) : List (Mask w h) :=
  match masks with
  | [] => []
  | a :: rest => [rest.foldl bitwise_or a]

/-- Source `mask_invert`: `ImageChops.invert` per mask (`255 - pixel` for
mode-L images), preserving list length and order. -/
def mask_invert {w h : ℕ} (masks : List (Mask w h)) : List (Mask w h) :=
  masks.map fun m r c => 255 - m r c

/-- Modelled from the spec: `MASK_MERGE_INVERT` (defined in
`adetailer/args.py`, which is not under `src/`): the fixed ordered
merge/invert alias table, index = integer mode. -/
def MASK_MERGE_INVERT : List String := ["None", "Merge", "Merge and Invert", "Subtract"]

/-- Integer-mode body of `mask_merge_invert` (after string resolution):
`NONE` or empty list → unchanged; `MERGE`; `MERGE_INVERT`; `SUBTRACT` with
`len(masks) != 2` → unchanged, else `[subtract_masks(masks[0], masks[1])]`;
`raise RuntimeError` on any other mode is modelled as `Except.error`. -/
def mask_merge_invert_int {w h : ℕ} (masks : List (Mask w h)) (mode : ℤ) :
    Except Unit (List (Mask w h)) :=
  if mode = 0 ∨ masks.isEmpty then .ok masks
  else if mode = 1 then .ok (mask_merge masks)
  else if mode = 2 then .ok (mask_invert (mask_merge masks))
  else if mode = 3 then
    if masks.length ≠ 2 then .ok masks
    else .ok [subtract_masks (masks.getD 0 default) (masks.getD 1 default)]
  else .error ()

/-- Source `mask_merge_invert(masks, mode)`: a string mode is first resolved
with `MASK_MERGE_INVERT.index(mode)`; Python `list.index` raises `ValueError`
when the entry is missing, modelled as `Except.error`. -/
def mask_merge_invert {w h : ℕ} (masks : List (Mask w h)) (mode : ℤ ⊕ String) :
    Except Unit (List (Mask w h)) :=
  match mode with
  | .inl i => mask_merge_invert_int masks i
  | .inr s =>
    match MASK_MERGE_INVERT.indexOf? s with
    | some i => mask_merge_invert_int masks (i : ℤ)
    | none => .error ()

theorem mask_merge_invert_inl {w h : ℕ} (masks : List (Mask w h)) (i : ℤ) :
    mask_merge_invert masks (.inl i) = mask_merge_invert_int masks i := rfl

theorem mask_merge_invert_inr {w h : ℕ} (masks : List (Mask w h)) (s : String) :
    mask_merge_invert masks (.inr s)
      = match MASK_MERGE_INVERT.indexOf? s with
        | some i => mask_merge_invert_int masks (i : ℤ)
        | none => .error () := rfl

/-- Source `mask_preprocess`: offset, then dilate/erode with blank pruning,
then merge/invert. -/
def mask_preprocess {w h : ℕ} [NeZero w] [NeZero h] (masks : List (Mask w h))
    (kernel : ℤ) (x_offset y_offset : ℤ) (merge_invert : ℤ ⊕ String) :
    Except Unit (List (Mask w h)) :=
  if masks.isEmpty then .ok []
  else
    let masks := if x_offset ≠ 0 ∨ y_offset ≠ 0
      then masks.map fun m => offset m x_offset y_offset else masks
    let masks := if kernel ≠ 0
      then (masks.map fun m => dilate_erode m kernel).filter fun m => ! is_all_black m
      else masks
    mask_merge_invert masks merge_invert

/-- C5: `merge_invert` returns its input mask list unchanged in every
degenerate case: mode `NONE` (any masks); an empty mask list under every
recognized mode, integer or string alias; and `SUBTRACT` with a mask count
other than 2 — a silent no-op, not an error. -/
theorem mask_merge_invert_degenerate {w h : ℕ} (masks : List (Mask w h)) (mode : ℤ) :
    mask_merge_invert masks (.inl 0) = .ok masks
      ∧ (mode = 0 ∨ mode = 1 ∨ mode = 2 ∨ mode = 3 →
          mask_merge_invert ([] : List (Mask w h)) (.inl mode) = .ok [])
      ∧ (∀ s ∈ MASK_MERGE_INVERT,
          mask_merge_invert ([] : List (Mask w h)) (.inr s) = .ok [])
      ∧ (masks.length ≠ 2 → mask_merge_invert masks (.inl 3) = .ok masks) := by
  refine ⟨?_, ?_, ?_, ?_⟩
  · simp [mask_merge_invert, mask_merge_invert_int]
  · rintro (rfl | rfl | rfl | rfl) <;>
      simp [mask_merge_invert, mask_merge_invert_int]
  · intro s hs
    simp only [MASK_MERGE_INVERT, List.mem_cons, List.not_mem_nil, or_false] at hs
    rcases hs with rfl | rfl | rfl | rfl <;> rfl
  · intro hlen
    rw [mask_merge_invert_inl]
    by_cases hemp : masks.isEmpty
    · rw [List.isEmpty_iff] at hemp
      subst hemp
      rfl
    · rw [mask_merge_invert_int, if_neg (fun hor => hor.elim (by norm_num) hemp),
          if_neg (by norm_num), if_neg (by norm_num), if_pos rfl, if_pos hlen]

/-- Witness for C5 at three concrete 1×1 masks, mode 2 and the string alias
table. -/
theorem mask_merge_invert_degenerate_witness :
    mask_merge_invert (List.replicate 3 (fun _ _ => 255 : Mask 1 1)) (.inl 0)
        = .ok (List.replicate 3 (fun _ _ => 255 : Mask 1 1))
      ∧ mask_merge_invert ([] : List (Mask 1 1)) (.inl 2) = .ok []
      ∧ mask_merge_invert ([] : List (Mask 1 1)) (.inr "Merge and Invert") = .ok []
      ∧ mask_merge_invert (List.replicate 3 (fun _ _ => 255 : Mask 1 1)) (.inl 3)
        = .ok (List.replicate 3 (fun _ _ => 255 : Mask 1 1)) := by
  obtain ⟨h1, h2, h3, h4⟩ :=
    mask_merge_invert_degenerate (List.replicate 3 (fun _ _ => 255 : Mask 1 1)) 2
  exact ⟨h1, h2 (by norm_num), h3 "Merge and Invert" (by simp [MASK_MERGE_INVERT]),
         h4 (by simp)⟩

/-- C2 fails as stated: with a single bbox, `sort_bboxes` silently returns
its input unchanged for the invalid order 99 instead of failing — the
`len(bboxes) <= 1` early return precedes the enum check. -/
theorem sort_bboxes_invalid_order_silent :
    sort_bboxes
        { bboxes := [⟨0, 0, 1, 1⟩], masks := [(0 : ℕ)], confidences := [1],
          preview := (8, 8) } 99
      = Except.ok
        { bboxes := [⟨0, 0, 1, 1⟩], masks := [(0 : ℕ)], confidences := [1],
          preview := (8, 8) } := rfl

/-- C2 amended: an invalid enum fails loudly except when a degenerate early
return fires first: `sort` raises for an unrecognized order whenever
`len(bboxes) ≥ 2`; `merge_invert` raises for an unrecognized integer mode
whenever `masks` is nonempty, and for an unresolvable string alias
unconditionally; with `len(bboxes) ≤ 1` (sort) or empty `masks` (integer
mode) the input is returned unchanged without the enum being inspected. -/
theorem invalid_enum_fails {α : Type} [Inhabited α] {w h : ℕ}
    (pred : PredictOutput α) (order : ℤ) (masks : List (Mask w h)) (mode : ℤ)
    (s : String) :
    (2 ≤ pred.bboxes.length → order ≠ 0 → order ≠ 1 → order ≠ 2 → order ≠ 3 →
        sort_bboxes pred order = .error ())
      ∧ (masks ≠ [] → mode ≠ 0 → mode ≠ 1 → mode ≠ 2 → mode ≠ 3 →
          mask_merge_invert masks (.inl mode) = .error ())
      ∧ (s ∉ MASK_MERGE_INVERT → mask_merge_invert masks (.inr s) = .error ()) := by
  refine ⟨?_, ?_, ?_⟩
  · intro hlen h0 h1 h2 h3
    rw [sort_bboxes, if_neg (by omega), if_neg (by tauto)]
  · intro hne h0 h1 h2 h3
    rw [mask_merge_invert_inl, mask_merge_invert_int,
        if_neg (by simp [List.isEmpty_iff, hne, h0]),
        if_neg h1, if_neg h2, if_neg h3]
  · intro hs
    have hnone : MASK_MERGE_INVERT.indexOf? s = none := by
      rw [List.indexOf?]
      exact List.findIdx?_eq_none_iff.mpr fun x hx =>
        beq_eq_false_iff_ne.mpr fun hxe => hs (hxe ▸ hx)
    rw [mask_merge_invert_inr, hnone]

/-- Witness for the amended C2 at concrete inputs: two bboxes with order 42,
one 1×1 mask with integer mode 42, and the unknown string alias "Bogus". -/
theorem invalid_enum_fails_witness :
    sort_bboxes
        { bboxes := [⟨0, 0, 1, 1⟩, ⟨2, 2, 3, 3⟩], masks := [(0 : ℕ), 1],
          confidences := [1, 1], preview := (8, 8) } 42
      = Except.error ()
      ∧ mask_merge_invert [(fun _ _ => 255 : Mask 1 1)] (.inl 42) = .error ()
      ∧ mask_merge_invert [(fun _ _ => 255 : Mask 1 1)] (.inr "Bogus") = .error () := by
  obtain ⟨h1, h2, h3⟩ :=
    invalid_enum_fails
      { bboxes := [⟨0, 0, 1, 1⟩, ⟨2, 2, 3, 3⟩], masks := [(0 : ℕ), 1],
        confidences := [1, 1], preview := (8, 8) }
      42 [(fun _ _ => 255 : Mask 1 1)] 42 "Bogus"
  exact ⟨h1 (by norm_num) (by norm_num) (by norm_num) (by norm_num) (by norm_num),
         h2 (by simp) (by norm_num) (by norm_num) (by norm_num) (by norm_num),
         h3 (by simp [MASK_MERGE_INVERT])⟩

theorem range_filter_map_getD {β γ : Type} (db : β) (dm : γ) :
    ∀ (b : List β) (m : List γ) (p : β → Bool), m.length = b.length →
      (((List.range b.length).filter fun i => p (b.getD i db)).map fun i => m.getD i dm)
        = ((b.zip m).filter fun x => p x.1).map Prod.snd
  | [], m, p, hm => by simp
  | x :: bs, [], p, hm => by simp at hm
  | x :: bs, y :: ms, p, hm => by
    have IH := range_filter_map_getD db dm bs ms p (by simpa using hm)
    have hcomp1 : ((List.range bs.length).map Nat.succ).filter
          (fun i => p ((x :: bs).getD i db))
        = ((List.range bs.length).filter fun i => p (bs.getD i db)).map Nat.succ := by
      rw [List.filter_map]
      rfl
    have hcomp2 : (((List.range bs.length).filter fun i => p (bs.getD i db)).map
          Nat.succ).map (fun i => (y :: ms).getD i dm)
        = ((List.range bs.length).filter fun i => p (bs.getD i db)).map
            fun i => ms.getD i dm := by
      rw [List.map_map]
      rfl
    rw [List.length_cons, List.range_succ_eq_map, List.filter_cons]
    by_cases hpx : p x
    · rw [if_pos (by simpa using hpx), List.map_cons, hcomp1, hcomp2, IH,
          List.zip_cons_cons, List.filter_cons, if_pos (by simpa using hpx),
          List.map_cons]
      rfl
    · rw [if_neg (by simpa using hpx), hcomp1, hcomp2, IH,
          List.zip_cons_cons, List.filter_cons, if_neg (by simpa using hpx)]

theorem zip_self_filter_map {β : Type} (p : β → Bool) :
    ∀ b : List β, ((b.zip b).filter fun x => p x.1).map Prod.snd = b.filter p
  | [] => rfl
  | x :: bs => by
    rw [List.zip_cons_cons, List.filter_cons, List.filter_cons]
    by_cases hpx : p x
    · rw [if_pos (by simpa using hpx), if_pos (by simpa using hpx), List.map_cons,
          zip_self_filter_map p bs]
    · rw [if_neg (by simpa using hpx), if_neg (by simpa using hpx),
          zip_self_filter_map p bs]

/-- C7: `filter_by_ratio` keeps exactly the indices whose bbox-area ratio
lies in `[low, high]` — both bounds inclusive, as the last conjunct makes
explicit — and the kept bboxes and masks are stable subsequences (original
relative order), the masks being selected at the same indices as the bboxes.
The positive-extent hypothesis mirrors the data model (`width, height > 0`;
in Python a zero `orig_area` would raise `ZeroDivisionError`, while ℚ
division is total). -/
theorem filter_by_ratio_spec {α : Type} [Inhabited α] (pred : PredictOutput α)
    (low high : ℚ) (hwh : 0 < pred.preview.1 * pred.preview.2)
    (hlen : pred.masks.length = pred.bboxes.length) :
    (filter_by_ratio pred low high).bboxes
        = (pred.bboxes.filter fun b =>
            is_in_ratio b low high (pred.preview.1 * pred.preview.2))
      ∧ (filter_by_ratio pred low high).masks
        = (((pred.bboxes.zip pred.masks).filter fun x =>
            is_in_ratio x.1 low high (pred.preview.1 * pred.preview.2)).map Prod.snd)
      ∧ (∀ (b : Bbox) (oa : ℕ),
          is_in_ratio b low high oa = true
            ↔ low ≤ bbox_area b / (oa : ℚ) ∧ bbox_area b / (oa : ℚ) ≤ high) := by
  refine ⟨?_, ?_, ?_⟩
  · by_cases hemp : pred.bboxes.isEmpty
    · rw [filter_by_ratio, if_pos hemp]
      rw [List.isEmpty_iff] at hemp
      rw [hemp]
      rfl
    · rw [filter_by_ratio, if_neg hemp]
      exact (range_filter_map_getD (default : Bbox) (default : Bbox) pred.bboxes
          pred.bboxes
          (fun bb => is_in_ratio bb low high (pred.preview.1 * pred.preview.2))
          rfl).trans
        (zip_self_filter_map
          (fun bb => is_in_ratio bb low high (pred.preview.1 * pred.preview.2))
          pred.bboxes)
  · by_cases hemp : pred.bboxes.isEmpty
    · rw [filter_by_ratio, if_pos hemp]
      rw [List.isEmpty_iff] at hemp
      have : pred.masks = [] := List.eq_nil_of_length_eq_zero (by rw [hlen, hemp]; rfl)
      rw [this, hemp]
      rfl
    · rw [filter_by_ratio, if_neg hemp]
      exact range_filter_map_getD (default : Bbox) (default : α) pred.bboxes
        pred.masks
        (fun bb => is_in_ratio bb low high (pred.preview.1 * pred.preview.2)) hlen
  · intro b oa
    simp [ is_in_ratio, Bool.and_eq_true, decide_eq_true_eq]

/-- Witness for C7: extent 10×10, areas 25 and 1, band [1/4, 1]; the ratio
25/100 = 1/4 sits exactly on the inclusive lower bound and is kept, 1/100 is
dropped. -/
theorem filter_by_ratio_spec_witness :
    (filter_by_ratio
        { bboxes := [⟨0, 0, 5, 5⟩, ⟨0, 0, 1, 1⟩], masks := [(7 : ℕ), 8],
          confidences := [1/2, 1/3], preview := (10, 10) } (1/4) 1).bboxes
        = [⟨0, 0, 5, 5⟩]
      ∧ (filter_by_ratio
        { bboxes := [⟨0, 0, 5, 5⟩, ⟨0, 0, 1, 1⟩], masks := [(7 : ℕ), 8],
          confidences := [1/2, 1/3], preview := (10, 10) } (1/4) 1).masks
        = [7] := by
  obtain ⟨hb, hm, _⟩ := filter_by_ratio_spec
    { bboxes := [⟨0, 0, 5, 5⟩, ⟨0, 0, 1, 1⟩], masks := [(7 : ℕ), 8],
      confidences := [1/2, 1/3], preview := (10, 10) } (1/4) 1
    (by norm_num) rfl
  rw [hb, hm]
  constructor <;>
    norm_num [List.filter_cons, List.filter_nil, is_in_ratio, bbox_area]

/-- Result `res` is built from `pred` by one common index selection: the
bbox and the mask at each output position `j` come from the same input
position `i` (and the two output lists have equal length). -/
def AlignedTo {α : Type} [Inhabited α] (pred res : PredictOutput α) : Prop :=
  res.bboxes.length = res.masks.length
    ∧ ∀ j, j < res.bboxes.length →
        ∃ i, i < pred.bboxes.length
          ∧ res.bboxes.getD j default = pred.bboxes.getD i default
          ∧ res.masks.getD j default = pred.masks.getD i default

theorem alignedTo_of_map {α : Type} [Inhabited α] (pred : PredictOutput α)
    (idx : List ℕ) (hidx : ∀ i ∈ idx, i < pred.bboxes.length)
    (res : PredictOutput α)
    (hb : res.bboxes = idx.map fun i => pred.bboxes.getD i default)
    (hm : res.masks = idx.map fun i => pred.masks.getD i default) :
    AlignedTo pred res := by
  constructor
  · rw [hb, hm, List.length_map, List.length_map]
  · intro j hj
    rw [hb, List.length_map] at hj
    refine ⟨idx.getD j 0, hidx _ ?_, ?_, ?_⟩
    · rw [List.getD_eq_getElem idx 0 hj]
      exact List.getElem_mem hj
    · rw [hb, List.getD_eq_getElem _ default (by simpa using hj), List.getElem_map,
          List.getD_eq_getElem idx 0 hj]
    · rw [hm, List.getD_eq_getElem _ default (by simpa using hj), List.getElem_map,
          List.getD_eq_getElem idx 0 hj]

theorem alignedTo_self {α : Type} [Inhabited α] (pred : PredictOutput α)
    (hlen : pred.masks.length = pred.bboxes.length) : AlignedTo pred pred :=
  ⟨hlen.symm, fun j hj => ⟨j, hj, rfl, rfl⟩⟩

/-- C8: starting from aligned lists, `filter_by_ratio`, `filter_k_largest`
and `sort_bboxes` each keep `len(bboxes) == len(masks)` and read both output
lists through one common index selection, so the bbox at position `j` always
corresponds to the mask at position `j`. -/
theorem joint_alignment {α : Type} [Inhabited α] (pred res : PredictOutput α)
    (low high : ℚ) (k order : ℤ)
    (hlen : pred.masks.length = pred.bboxes.length) :
    AlignedTo pred (filter_by_ratio pred low high)
      ∧ AlignedTo pred (filter_k_largest pred k)
      ∧ (sort_bboxes pred order = .ok res → AlignedTo pred res) := by
  refine ⟨?_, ?_, ?_⟩
  · by_cases hemp : pred.bboxes.isEmpty
    · rw [filter_by_ratio, if_pos hemp]
      exact alignedTo_self pred hlen
    · rw [filter_by_ratio, if_neg hemp]
      refine alignedTo_of_map pred (filterIdx pred low high) (fun i hi => ?_) _ rfl rfl
      exact List.mem_range.mp (List.mem_filter.mp hi).1
  · by_cases hcond : pred.bboxes.isEmpty ∨ k = 0
    · rw [filter_k_largest, if_pos hcond]
      exact alignedTo_self pred hlen
    · rw [filter_k_largest, if_neg hcond]
      refine alignedTo_of_map pred _ (fun i hi => ?_) _ rfl rfl
      have hsub : List.Sublist
          (pySliceFrom (-k) (argsort (pred.bboxes.map bbox_area)))
          (argsort (pred.bboxes.map bbox_area)) := by
        rw [pySliceFrom]
        split <;> exact List.drop_sublist _ _
      have h2 : i ∈ List.range (pred.bboxes.map bbox_area).length :=
        List.mem_mergeSort.mp (hsub.mem hi)
      simpa using List.mem_range.mp h2
  · intro hres
    rw [sort_bboxes] at hres
    by_cases h1 : order = 0 ∨ pred.bboxes.length ≤ 1
    · rw [if_pos h1] at hres
      injection hres with h
      subst h
      exact alignedTo_self pred hlen
    · rw [if_neg h1] at hres
      by_cases h2 : order = 1 ∨ order = 2 ∨ order = 3
      · rw [if_pos h2] at hres
        injection hres with h
        subst h
        refine alignedTo_of_map pred (sortIdx pred (sortKeyOf pred order))
          (fun i hi => ?_) _ rfl rfl
        exact List.mem_range.mp (List.mem_mergeSort.mp hi)
      · rw [if_neg h2] at hres
        exact absurd hres (by simp)

/-- Witness for C8 at a concrete two-element set (with `k = 1`, ratio band
[0, 1], and the sort short-circuiting on order 0). -/
theorem joint_alignment_witness :
    AlignedTo
        { bboxes := [⟨0, 0, 2, 2⟩, ⟨0, 0, 3, 3⟩], masks := [(5 : ℕ), 6],
          confidences := [1], preview := (4, 4) }
        (filter_by_ratio
          { bboxes := [⟨0, 0, 2, 2⟩, ⟨0, 0, 3, 3⟩], masks := [(5 : ℕ), 6],
            confidences := [1], preview := (4, 4) } 0 1)
      ∧ AlignedTo
        { bboxes := [⟨0, 0, 2, 2⟩, ⟨0, 0, 3, 3⟩], masks := [(5 : ℕ), 6],
          confidences := [1], preview := (4, 4) }
        (filter_k_largest
          { bboxes := [⟨0, 0, 2, 2⟩, ⟨0, 0, 3, 3⟩], masks := [(5 : ℕ), 6],
            confidences := [1], preview := (4, 4) } 1)
      ∧ AlignedTo
        { bboxes := [⟨0, 0, 2, 2⟩, ⟨0, 0, 3, 3⟩], masks := [(5 : ℕ), 6],
          confidences := [1], preview := (4, 4) }
        { bboxes := [⟨0, 0, 2, 2⟩, ⟨0, 0, 3, 3⟩], masks := [(5 : ℕ), 6],
          confidences := [1], preview := (4, 4) } := by
  obtain ⟨h1, h2, h3⟩ := joint_alignment
    { bboxes := [⟨0, 0, 2, 2⟩, ⟨0, 0, 3, 3⟩], masks := [(5 : ℕ), 6],
      confidences := [1], preview := (4, 4) }
    { bboxes := [⟨0, 0, 2, 2⟩, ⟨0, 0, 3, 3⟩], masks := [(5 : ℕ), 6],
      confidences := [1], preview := (4, 4) }
    0 1 1 0 rfl
  exact ⟨h1, h2, h3 rfl⟩

/-- C10: `filter_by_ratio`, `filter_k_largest` and `sort_bboxes` change only
`bboxes` and `masks`: the `confidences` list and the reference `preview` of
the result are exactly those of the input (so after a filter drops elements,
`confidences` keeps its original length and is no longer index-aligned). -/
theorem untouched_fields {α : Type} [Inhabited α] (pred res : PredictOutput α)
    (low high : ℚ) (k order : ℤ) :
    ((filter_by_ratio pred low high).confidences = pred.confidences
        ∧ (filter_by_ratio pred low high).preview = pred.preview)
      ∧ ((filter_k_largest pred k).confidences = pred.confidences
        ∧ (filter_k_largest pred k).preview = pred.preview)
      ∧ (sort_bboxes pred order = .ok res →
          res.confidences = pred.confidences ∧ res.preview = pred.preview) := by
  refine ⟨?_, ?_, ?_⟩
  · rw [filter_by_ratio]
    split <;> exact ⟨rfl, rfl⟩
  · rw [filter_k_largest]
    split <;> exact ⟨rfl, rfl⟩
  · intro hres
    rw [sort_bboxes] at hres
    by_cases h1 : order = 0 ∨ pred.bboxes.length ≤ 1
    · rw [if_pos h1] at hres
      injection hres with h
      subst h
      exact ⟨rfl, rfl⟩
    · rw [if_neg h1] at hres
      by_cases h2 : order = 1 ∨ order = 2 ∨ order = 3
      · rw [if_pos h2] at hres
        injection hres with h
        subst h
        exact ⟨rfl, rfl⟩
      · rw [if_neg h2] at hres
        exact absurd hres (by simp)

/-- Witness for C10 at a concrete input (sort applied with order 0). -/
theorem untouched_fields_witness :
    ((filter_by_ratio
          { bboxes := [⟨0, 0, 2, 2⟩], masks := [(5 : ℕ)], confidences := [1, 2],
            preview := (4, 4) } 0 (1/2)).confidences = [1, 2]
        ∧ (filter_by_ratio
          { bboxes := [⟨0, 0, 2, 2⟩], masks := [(5 : ℕ)], confidences := [1, 2],
            preview := (4, 4) } 0 (1/2)).preview = (4, 4))
      ∧ ((filter_k_largest
          { bboxes := [⟨0, 0, 2, 2⟩], masks := [(5 : ℕ)], confidences := [1, 2],
            preview := (4, 4) } 3).confidences = [1, 2]
        ∧ (filter_k_largest
          { bboxes := [⟨0, 0, 2, 2⟩], masks := [(5 : ℕ)], confidences := [1, 2],
            preview := (4, 4) } 3).preview = (4, 4)) := by
  obtain ⟨h1, h2, h3⟩ := untouched_fields
    { bboxes := [⟨0, 0, 2, 2⟩], masks := [(5 : ℕ)], confidences := [1, 2],
      preview := (4, 4) }
    { bboxes := [⟨0, 0, 2, 2⟩], masks := [(5 : ℕ)], confidences := [1, 2],
      preview := (4, 4) }
    0 (1/2) 3 0
  exact ⟨h1, h2⟩

theorem pair_sublist_range {i j n : ℕ} (hij : i < j) (hj : j < n) :
    List.Sublist [i, j] (List.range n) := by
  obtain ⟨m, rfl⟩ : ∃ m, n = (j + 1) + m := ⟨n - (j + 1), by omega⟩
  rw [List.range_add, List.range_succ, List.append_assoc]
  exact List.Sublist.append
    (List.singleton_sublist.mpr (List.mem_range.mpr hij))
    (List.sublist_append_left [j] _)

/-- C4: `sort_bboxes` is stable for every recognized non-trivial order: if
positions `i < j` carry equal sort keys, then `i` still precedes `j` in the
selected index order, and the output bboxes are exactly the input read
through that index order. -/
theorem sort_bboxes_stable {α : Type} [Inhabited α] (pred res : PredictOutput α)
    (order : ℤ) (i j : ℕ)
    (horder : order = 1 ∨ order = 2 ∨ order = 3)
    (hres : sort_bboxes pred order = .ok res)
    (hij : i < j) (hj : j < pred.bboxes.length)
    (hkey : sortKeyOf pred order (pred.bboxes.getD i default)
          = sortKeyOf pred order (pred.bboxes.getD j default)) :
    List.Sublist [i, j] (sortIdx pred (sortKeyOf pred order))
      ∧ res.bboxes = (sortIdx pred (sortKeyOf pred order)).map
          fun t => pred.bboxes.getD t default := by
  constructor
  · refine List.pair_sublist_mergeSort ?_ ?_ ?_ (pair_sublist_range hij hj)
    · intro a b c hab hbc
      simp only [decide_eq_true_eq] at hab hbc ⊢
      exact le_trans hab hbc
    · intro a b
      simp only [Bool.or_eq_true, decide_eq_true_eq]
      exact le_total _ _
    · simp only [decide_eq_true_eq, hkey]
      exact le_rfl
  · rw [sort_bboxes,
        if_neg (fun hor => hor.elim
          (fun h0 => by rcases horder with rfl | rfl | rfl <;> norm_num at h0)
          (fun hl => by omega)),
        if_pos horder] at hres
    injection hres with hh
    rw [← hh]

/-- Witness for C4: two bboxes with the same `x1 = 5` (tied LEFT_TO_RIGHT
keys) keep their original relative order. -/
theorem sort_bboxes_stable_witness :
    List.Sublist [0, 1]
        (sortIdx
          { bboxes := [⟨5, 0, 6, 1⟩, ⟨5, 2, 7, 3⟩], masks := [(10 : ℕ), 20],
            confidences := [1, 1], preview := (8, 8) }
          (sortKeyOf
            { bboxes := [⟨5, 0, 6, 1⟩, ⟨5, 2, 7, 3⟩], masks := [(10 : ℕ), 20],
              confidences := [1, 1], preview := (8, 8) } 1))
      ∧ ({ bboxes := [⟨5, 0, 6, 1⟩, ⟨5, 2, 7, 3⟩], masks := [(10 : ℕ), 20],
           confidences := [1, 1], preview := (8, 8) } : PredictOutput ℕ).bboxes
        = (sortIdx
            { bboxes := [⟨5, 0, 6, 1⟩, ⟨5, 2, 7, 3⟩], masks := [(10 : ℕ), 20],
              confidences := [1, 1], preview := (8, 8) }
            (sortKeyOf
              { bboxes := [⟨5, 0, 6, 1⟩, ⟨5, 2, 7, 3⟩], masks := [(10 : ℕ), 20],
                confidences := [1, 1], preview := (8, 8) } 1)).map
          fun t =>
            ({ bboxes := [⟨5, 0, 6, 1⟩, ⟨5, 2, 7, 3⟩], masks := [(10 : ℕ), 20],
               confidences := [1, 1], preview := (8, 8) } :
              PredictOutput ℕ).bboxes.getD t default := by
  have hidx : sortIdx
      { bboxes := [⟨5, 0, 6, 1⟩, ⟨5, 2, 7, 3⟩], masks := [(10 : ℕ), 20],
        confidences := [1, 1], preview := (8, 8) }
      (sortKeyOf
        { bboxes := [⟨5, 0, 6, 1⟩, ⟨5, 2, 7, 3⟩], masks := [(10 : ℕ), 20],
          confidences := [1, 1], preview := (8, 8) } 1) = [0, 1] := by
    rw [sortIdx]
    rw [show List.range
        ({ bboxes := [⟨5, 0, 6, 1⟩, ⟨5, 2, 7, 3⟩], masks := [(10 : ℕ), 20],
             confidences := [1, 1],
             preview := (8, 8) } : PredictOutput ℕ).bboxes.length
          = [0, 1] from rfl]
    rw [List.mergeSort]
    norm_num [List.splitInTwo, List.splitAt, List.splitAt.go, List.merge,
      sortKeyOf, _key_left_to_right]
  have hres : sort_bboxes
      { bboxes := [⟨5, 0, 6, 1⟩, ⟨5, 2, 7, 3⟩], masks := [(10 : ℕ), 20],
        confidences := [1, 1], preview := (8, 8) } 1
      = .ok { bboxes := [⟨5, 0, 6, 1⟩, ⟨5, 2, 7, 3⟩], masks := [(10 : ℕ), 20],
              confidences := [1, 1], preview := (8, 8) } := by
    rw [sort_bboxes, if_neg (by decide), if_pos (Or.inl rfl)]
    simp only [hidx]
    rfl
  exact sort_bboxes_stable
    { bboxes := [⟨5, 0, 6, 1⟩, ⟨5, 2, 7, 3⟩], masks := [(10 : ℕ), 20],
      confidences := [1, 1], preview := (8, 8) }
    { bboxes := [⟨5, 0, 6, 1⟩, ⟨5, 2, 7, 3⟩], masks := [(10 : ℕ), 20],
      confidences := [1, 1], preview := (8, 8) }
    1 0 1 (Or.inl rfl) hres (by norm_num) (by norm_num) rfl

theorem map_getD_range {β : Type} (d : β) :
    ∀ l : List β, (List.range l.length).map (fun i => l.getD i d) = l
  | [] => rfl
  | x :: xs => by
    rw [List.length_cons, List.range_succ_eq_map, List.map_cons, List.map_map,
        show ((fun i => (x :: xs).getD i d) ∘ Nat.succ) = fun i => xs.getD i d
          from rfl,
        map_getD_range d xs]
    rfl

theorem argsort_map_getD (l : List ℚ) :
    (argsort l).map (fun i => l.getD i 0)
      = l.mergeSort fun a b => decide (a ≤ b) := by
  rw [argsort]
  exact (@List.map_mergeSort ℕ ℚ
      (fun i j => decide (l.getD i 0 ≤ l.getD j 0)) (fun a b => decide (a ≤ b))
      (fun i => l.getD i 0) (List.range l.length)
      (fun a _ b _ => rfl)).trans
    (by rw [map_getD_range 0 l])

theorem argsort_mem_lt (l : List ℚ) {i : ℕ} (hi : i ∈ argsort l) : i < l.length :=
  List.mem_range.mp (List.mem_mergeSort.mp hi)

theorem pySliceFrom_neg {β : Type} (k : ℤ) (hk : 0 < k) (l : List β) :
    pySliceFrom (-k) l = l.drop (l.length - k.toNat) := by
  rw [pySliceFrom, if_pos (by omega)]
  congr 1
  omega

theorem filter_k_largest_eq {α : Type} [Inhabited α] (pred : PredictOutput α)
    (k : ℤ) (hcond : ¬(pred.bboxes.isEmpty ∨ k = 0)) :
    filter_k_largest pred k
      = { pred with
          bboxes := (pySliceFrom (-k) (argsort (pred.bboxes.map bbox_area))).map
            fun i => pred.bboxes.getD i default,
          masks := (pySliceFrom (-k) (argsort (pred.bboxes.map bbox_area))).map
            fun i => pred.masks.getD i default } := by
  rw [filter_k_largest, if_neg hcond]

theorem pairwise_le_mergeSort_rat (l : List ℚ) :
    ((l.mergeSort fun a b => decide (a ≤ b)).Pairwise fun a b : ℚ => a ≤ b) := by
  have h : List.Pairwise (fun a b : ℚ => decide (a ≤ b) = true)
      (l.mergeSort fun a b => decide (a ≤ b)) :=
    List.sorted_mergeSort
      (fun a b c hab hbc => by
        simp only [decide_eq_true_eq] at hab hbc ⊢
        exact le_trans hab hbc)
      (fun a b => by
        simp only [Bool.or_eq_true, decide_eq_true_eq]
        exact le_total a b) l
  exact h.imp (by simp)

/-- C3 fails as stated: two bboxes with tied areas (both 100, the spec's own
scenario) and `k = 2 = len(bboxes) ≠ 0`: every element is kept but the output
areas are `[100, 100]`, ascending yet not strictly ascending. -/
theorem filter_k_largest_ties_not_strict :
    ((filter_k_largest
        { bboxes := [⟨0, 0, 10, 10⟩, ⟨5, 5, 15, 15⟩], masks := [(1 : ℕ), 2],
          confidences := [1, 1], preview := (100, 100) } 2).bboxes.map bbox_area
      = [100, 100])
      ∧ ¬ List.Chain' (fun a b : ℚ => a < b)
          ((filter_k_largest
            { bboxes := [⟨0, 0, 10, 10⟩, ⟨5, 5, 15, 15⟩], masks := [(1 : ℕ), 2],
              confidences := [1, 1], preview := (100, 100) } 2).bboxes.map
            bbox_area) := by
  have hargs : argsort
      (({ bboxes := [⟨0, 0, 10, 10⟩, ⟨5, 5, 15, 15⟩], masks := [(1 : ℕ), 2],
            confidences := [1, 1],
            preview := (100, 100) } : PredictOutput ℕ).bboxes.map bbox_area)
      = [0, 1] := by
    rw [argsort]
    rw [show List.range
        (({ bboxes := [⟨0, 0, 10, 10⟩, ⟨5, 5, 15, 15⟩], masks := [(1 : ℕ), 2],
              confidences := [1, 1],
              preview := (100, 100) } : PredictOutput ℕ).bboxes.map
          bbox_area).length = [0, 1] from rfl]
    rw [List.mergeSort]
    norm_num [List.splitInTwo, List.splitAt, List.splitAt.go, List.merge,
      bbox_area]
  have hbb : (filter_k_largest
      { bboxes := [⟨0, 0, 10, 10⟩, ⟨5, 5, 15, 15⟩], masks := [(1 : ℕ), 2],
        confidences := [1, 1], preview := (100, 100) } 2).bboxes
      = [⟨0, 0, 10, 10⟩, ⟨5, 5, 15, 15⟩] := by
    rw [filter_k_largest_eq _ 2 (by decide)]
    show (pySliceFrom (-2)
        (argsort
          (({ bboxes := [⟨0, 0, 10, 10⟩, ⟨5, 5, 15, 15⟩], masks := [(1 : ℕ), 2],
                confidences := [1, 1],
                preview := (100, 100) } : PredictOutput ℕ).bboxes.map
            bbox_area))).map _ = _
    rw [hargs]
    rfl
  rw [hbb]
  have hmap : ([⟨0, 0, 10, 10⟩, ⟨5, 5, 15, 15⟩] : List Bbox).map bbox_area
      = [100, 100] := by
    norm_num [bbox_area]
  rw [hmap]
  refine ⟨rfl, ?_⟩
  rw [List.chain'_cons]
  norm_num

/-- C3 amended: for every `k > 0` (and aligned masks), the output areas are
exactly the last `k` entries of the stably sorted area list — the largest-`k`
multiset, ordered ascending (non-strictly when areas tie) with the `k`-th
largest last; the output length is `min k n`; and for `k ≥ len(bboxes)` no
element is dropped: both lists are permutations of the input. -/
theorem filter_k_largest_spec {α : Type} [Inhabited α] (pred : PredictOutput α)
    (k : ℤ) (hk : 0 < k) (hlen : pred.masks.length = pred.bboxes.length) :
    ((filter_k_largest pred k).bboxes.map bbox_area
        = ((pred.bboxes.map bbox_area).mergeSort fun a b => decide (a ≤ b)).drop
            (pred.bboxes.length - k.toNat))
      ∧ ((filter_k_largest pred k).bboxes.map bbox_area).Pairwise
          (fun a b : ℚ => a ≤ b)
      ∧ (filter_k_largest pred k).bboxes.length = min k.toNat pred.bboxes.length
      ∧ ((pred.bboxes.length : ℤ) ≤ k →
          List.Perm (filter_k_largest pred k).bboxes pred.bboxes
            ∧ List.Perm (filter_k_largest pred k).masks pred.masks) := by
  by_cases hemp : pred.bboxes.isEmpty
  · have hb : pred.bboxes = [] := List.isEmpty_iff.mp hemp
    have hm : pred.masks = [] := by
      refine List.eq_nil_of_length_eq_zero ?_
      rw [hlen, hb]
      rfl
    have hres : filter_k_largest pred k = pred := by
      rw [filter_k_largest, if_pos (Or.inl hemp)]
    rw [hres, hb, hm]
    exact ⟨by simp, by simp, by simp,
      fun _ => ⟨List.Perm.refl _, List.Perm.refl _⟩⟩
  · have hcond : ¬(pred.bboxes.isEmpty ∨ k = 0) := fun hor => hor.elim hemp (by omega)
    have heq := filter_k_largest_eq pred k hcond
    have hargsortlen : (argsort (pred.bboxes.map bbox_area)).length
        = pred.bboxes.length := by
      rw [argsort, List.length_mergeSort, List.length_range, List.length_map]
    have hslice : pySliceFrom (-k) (argsort (pred.bboxes.map bbox_area))
        = (argsort (pred.bboxes.map bbox_area)).drop
            (pred.bboxes.length - k.toNat) := by
      rw [pySliceFrom_neg k hk, hargsortlen]
    have hidx_lt : ∀ i ∈ pySliceFrom (-k) (argsort (pred.bboxes.map bbox_area)),
        i < pred.bboxes.length := by
      intro i hi
      rw [hslice] at hi
      have h1 := (List.drop_sublist _ _).mem hi
      exact argsort_mem_lt _ h1 |>.trans_le (by rw [List.length_map])
    have hbb : (filter_k_largest pred k).bboxes.map bbox_area
        = ((pred.bboxes.map bbox_area).mergeSort fun a b => decide (a ≤ b)).drop
            (pred.bboxes.length - k.toNat) := by
      rw [heq]
      show ((pySliceFrom (-k) (argsort (pred.bboxes.map bbox_area))).map
          fun i => pred.bboxes.getD i default).map bbox_area = _
      rw [List.map_map]
      have hcong : ∀ i ∈ pySliceFrom (-k) (argsort (pred.bboxes.map bbox_area)),
          (bbox_area ∘ fun t => pred.bboxes.getD t default) i
            = (pred.bboxes.map bbox_area).getD i 0 := by
        intro i hi
        have hilt := hidx_lt i hi
        simp only [Function.comp]
        rw [List.getD_eq_getElem (pred.bboxes.map bbox_area) 0
              (by simpa using hilt),
            List.getD_eq_getElem pred.bboxes default hilt, List.getElem_map]
      rw [List.map_congr_left hcong, hslice, List.map_drop, argsort_map_getD]
    refine ⟨hbb, ?_, ?_, ?_⟩
    · rw [hbb]
      exact (pairwise_le_mergeSort_rat _).sublist (List.drop_sublist _ _)
    · rw [heq]
      show ((pySliceFrom (-k) (argsort (pred.bboxes.map bbox_area))).map
          fun i => pred.bboxes.getD i default).length = _
      rw [List.length_map, hslice, List.length_drop, hargsortlen]
      omega
    · intro hkn
      have hd : pred.bboxes.length - k.toNat = 0 := by omega
      have hidx0 : pySliceFrom (-k) (argsort (pred.bboxes.map bbox_area))
          = argsort (pred.bboxes.map bbox_area) := by
        rw [hslice, hd, List.drop_zero]
      have hperm : List.Perm (argsort (pred.bboxes.map bbox_area))
          (List.range pred.bboxes.length) := by
        rw [argsort, List.length_map]
        exact List.mergeSort_perm _ _
      constructor
      · rw [heq]
        show List.Perm ((pySliceFrom (-k)
            (argsort (pred.bboxes.map bbox_area))).map
            fun i => pred.bboxes.getD i default) pred.bboxes
        rw [hidx0]
        have hfin : List.Perm
            ((List.range pred.bboxes.length).map fun i => pred.bboxes.getD i default)
            pred.bboxes := by
          rw [map_getD_range default pred.bboxes]
        exact (hperm.map fun i => pred.bboxes.getD i default).trans hfin
      · rw [heq]
        show List.Perm ((pySliceFrom (-k)
            (argsort (pred.bboxes.map bbox_area))).map
            fun i => pred.masks.getD i default) pred.masks
        rw [hidx0]
        have hperm2 : List.Perm (argsort (pred.bboxes.map bbox_area))
            (List.range pred.masks.length) := by
          rw [hlen]
          exact hperm
        have hfin : List.Perm
            ((List.range pred.masks.length).map fun i => pred.masks.getD i default)
            pred.masks := by
          rw [map_getD_range default pred.masks]
        exact (hperm2.map fun i => pred.masks.getD i default).trans hfin

/-- Witness for the amended C3: areas 4, 1, 9 with k = 2. -/
theorem filter_k_largest_spec_witness :
    (0 : ℤ) < 2
      ∧ ((filter_k_largest
          { bboxes := [⟨0, 0, 2, 2⟩, ⟨0, 0, 1, 1⟩, ⟨0, 0, 3, 3⟩],
            masks := [(1 : ℕ), 2, 3], confidences := [1, 1, 1],
            preview := (4, 4) } 2).bboxes.map bbox_area
        = ((({ bboxes := [⟨0, 0, 2, 2⟩, ⟨0, 0, 1, 1⟩, ⟨0, 0, 3, 3⟩],
               masks := [(1 : ℕ), 2, 3], confidences := [1, 1, 1],
               preview := (4, 4) } : PredictOutput ℕ).bboxes.map
            bbox_area).mergeSort fun a b => decide (a ≤ b)).drop
            (({ bboxes := [⟨0, 0, 2, 2⟩, ⟨0, 0, 1, 1⟩, ⟨0, 0, 3, 3⟩],
                masks := [(1 : ℕ), 2, 3], confidences := [1, 1, 1],
                preview := (4, 4) } : PredictOutput ℕ).bboxes.length
              - (2 : ℤ).toNat)) :=
  ⟨by norm_num,
   (filter_k_largest_spec
      { bboxes := [⟨0, 0, 2, 2⟩, ⟨0, 0, 1, 1⟩, ⟨0, 0, 3, 3⟩],
        masks := [(1 : ℕ), 2, 3], confidences := [1, 1, 1],
        preview := (4, 4) } 2 (by norm_num) rfl).1⟩
